import Mathlib

/-!
Shallow embedding of the two-layer cache manager of md2jpg-viewer-extension
(`ExtensionCacheManager`, src/src/renderer.js lines 186-839; the memory-tier
helpers are byte-identical in src/src/cache-manager.js).  The L1 tier is a JS
`Map` plus an explicit access-order array; the L2 tier is an IndexedDB object
store keyed by `key` with an `accessTime` index.  JS `Date.now()` is passed in
as an explicit `now : Nat`; IndexedDB request outcomes are passed in as
explicit success flags (`putOk`, `deleteOk`).  Asynchronous continuations that
run strictly after an operation returns (the fire-and-forget
`updateAccessTime` refresh in `get`, the `setTimeout` cleanup timer) are
modelled as separate events rather than as part of the operation's result.
-/

namespace MdCache

/-- An opaque JS value stored in the cache.  `null` is a first-class value in
JS and the code compares lookup results against it, so it is a constructor. -/
inductive JSValue where
  | null
  | str (s : String)
  | num (n : Int)
deriving Repr, DecidableEq

/-- The `metadata` argument of `_addToMemoryCache`: the `set` path passes
`{ type }`, the L2-hit path of `get` passes `{ type, originalTimestamp }`. -/
structure MemMeta where
  mtype : Option String := none
  originalTimestamp : Option Nat := none
deriving Repr, DecidableEq

/-- A value of the L1 map `this.memoryCache`:
`{ value, metadata, accessTime: Date.now() }` (renderer.js line 274). -/
structure MemItem where
  value : JSValue
  metadata : MemMeta
  accessTime : Nat
deriving Repr, DecidableEq

/-- A record of the IndexedDB store `renderCache` as written by `set`
(renderer.js lines 464-471).  `timestamp` is the creation time
(the spec's `createdAt`), `accessTime` the spec's `lastAccessAt`. -/
structure DBEntry where
  key : String
  value : JSValue
  etype : String
  size : Nat
  timestamp : Nat
  accessTime : Nat
deriving Repr, DecidableEq

/-- The mutable fields of `ExtensionCacheManager` (renderer.js lines 187-204).
`db = none` models an IndexedDB that failed to open: `this.db` stays `null`
and `this.initPromise` is rejected, so every `await this.ensureDB()`
rethrows the initialization error. -/
structure CacheState where
  maxItems : Nat := 1000
  memoryMaxItems : Nat := 100
  memoryCache : List (String × MemItem) := []
  memoryAccessOrder : List String := []
  db : Option (List DBEntry) := none
  cleanupInProgress : Bool := false
  cleanupScheduled : Bool := false
deriving Repr

/-- A freshly constructed manager; `dbInit = some entries` is a successful
`initDB` over a store already holding `entries` (IndexedDB persists across
sessions), `dbInit = none` a failed open. -/
def initState (maxItems memoryMaxItems : Nat) (dbInit : Option (List DBEntry)) :
    CacheState :=
  { maxItems := maxItems, memoryMaxItems := memoryMaxItems,
    memoryCache := [], memoryAccessOrder := [], db := dbInit,
    cleanupInProgress := false, cleanupScheduled := false }

/-- Source `_removeFromMemoryCache(key)` (renderer.js lines 312-320): if the map has
the key, delete it from the map and splice it out of `memoryAccessOrder`.
The `logRemoval` parameter has no behavioural effect and is dropped. -/
def removeFromMemoryCache (key : String) (st : CacheState) : CacheState :=
  if (st.memoryCache.lookup key).isSome then
    { st with
      memoryCache := st.memoryCache.eraseP (fun p => p.1 == key),
      memoryAccessOrder := st.memoryAccessOrder.erase key }
  else st

/-- The `while (this.memoryCache.size > this.memoryMaxItems)` eviction loop of
`_addToMemoryCache` (renderer.js lines 278-281): shift the oldest key off the
front of the access order and delete it from the map.  When the order array
is exhausted while the map is still over the limit the JS loop would spin on
`delete(undefined)` forever; that situation is unreachable because the order
array always covers the map's keys, and the model simply stops there. -/
def evictLoop (maxItems : Nat) :
    List String → List (String × MemItem) → List String × List (String × MemItem)
  | [], cache => ([], cache)
  | oldest :: rest, cache =>
    if cache.length ≤ maxItems then (oldest :: rest, cache)
    else evictLoop maxItems rest (cache.eraseP (fun p => p.1 == oldest))

/-- Source `_addToMemoryCache(key, value, metadata)` (renderer.js lines 267-282):
remove any existing entry for the key, append the new item to the map and the
access order, then evict from the front while over `memoryMaxItems`. -/
def addToMemoryCache (now : Nat) (key : String) (value : JSValue)
    (metadata : MemMeta) (st : CacheState) : CacheState :=
  let st1 := if (st.memoryCache.lookup key).isSome then
    removeFromMemoryCache key st else st
  let cache1 := st1.memoryCache ++ [(key, ⟨value, metadata, now⟩)]
  let order1 := st1.memoryAccessOrder ++ [key]
  let r := evictLoop st1.memoryMaxItems order1 cache1
  { st1 with memoryCache := r.2, memoryAccessOrder := r.1 }

/-- Source `_getFromMemoryCache(key)` (renderer.js lines 287-307): on a present key,
remove it, refresh its `accessTime` and re-append it (promotion to
most-recently-used), returning the stored value; on an absent key return
`null` and leave the state untouched. -/
def getFromMemoryCache (now : Nat) (key : String) (st : CacheState) :
    JSValue × CacheState :=
  match st.memoryCache.lookup key with
  | none => (JSValue.null, st)
  | some item =>
    let st1 := removeFromMemoryCache key st
    let item1 := { item with accessTime := now }
    (item1.value,
     { st1 with
       memoryCache := st1.memoryCache ++ [(key, item1)],
       memoryAccessOrder := st1.memoryAccessOrder ++ [key] })

/-- Source `_clearMemoryCache()` (renderer.js lines 325-328). -/
def clearMemoryCache (st : CacheState) : CacheState :=
  { st with memoryCache := [], memoryAccessOrder := [] }

/-- The `JSON.stringify` call used by `estimateSize`; string escaping is elided
(the size field feeds statistics only, no claim depends on its value). -/
def jsonStringify : JSValue → String
  | JSValue.null => "null"
  | JSValue.str s => "\"" ++ s ++ "\""
  | JSValue.num n => toString n

/-- Source `estimateSize(data)` (renderer.js lines 354-356): byte length of the
string itself, or of its JSON serialization otherwise. -/
def estimateSize : JSValue → Nat
  | JSValue.str s => s.utf8ByteSize
  | v => (jsonStringify v).utf8ByteSize

/-- IndexedDB `store.get(key)`: the unique record with this primary key. -/
def dbFind (key : String) (d : List DBEntry) : Option DBEntry :=
  d.find? (fun e => e.key == key)

/-- IndexedDB `store.put(item)`: upsert by primary key, replacing the whole
record when the key exists. -/
def dbPut (item : DBEntry) (d : List DBEntry) : List DBEntry :=
  if d.any (fun e => e.key == item.key) then
    d.map (fun e => if e.key == item.key then item else e)
  else d ++ [item]

/-- IndexedDB `store.delete(key)`. -/
def dbDelete (key : String) (d : List DBEntry) : List DBEntry :=
  d.filter (fun e => e.key != key)

/-- Ordering produced by walking the `accessTime` index cursor: ascending
`accessTime`, ties broken by ascending primary key (IndexedDB index order).
The JS code re-sorts the collected rows with a stable
`items.sort((a, b) => a.accessTime - b.accessTime)` (renderer.js line 739),
which leaves this order unchanged. -/
def accessLE (a b : DBEntry) : Bool :=
  a.accessTime < b.accessTime ||
    (a.accessTime == b.accessTime && decide (a.key ≤ b.key))

/-- Insert one row into a list already sorted by `accessLE`. -/
def insertByAccess (e : DBEntry) : List DBEntry → List DBEntry
  | [] => [e]
  | x :: xs => if accessLE e x then e :: x :: xs else x :: insertByAccess e xs

/-- The rows of the store in `accessTime`-index cursor order
(renderer.js lines 724-739). -/
def scanByAccessTime : List DBEntry → List DBEntry
  | [] => []
  | x :: xs => insertByAccess x (scanByAccessTime xs)

/-- Failure modes surfaced by the cache operations: `storageUnavailable` is a
rejected `ensureDB()` (IndexedDB never opened), `requestError` a failed
IndexedDB request or aborted transaction. -/
inductive CacheError where
  | storageUnavailable
  | requestError
deriving Repr, DecidableEq

/-- Source `get(key)` (renderer.js lines 361-418).  L1 first: a non-`null`
`_getFromMemoryCache` result is returned at once (the deferred
`updateAccessTime` refresh fires after return and is not part of this step).
Otherwise `ensureDB` (rejecting when the database never opened), then the L2
record: on a hit, populate L1 with the stored value and resolve it; on a
miss resolve `null`. -/
def get (now : Nat) (key : String) (st : CacheState) :
    Except CacheError JSValue × CacheState :=
  let r := getFromMemoryCache now key st
  if r.1 ≠ JSValue.null then (Except.ok r.1, r.2)
  else
    match r.2.db with
    | none => (Except.error CacheError.storageUnavailable, r.2)
    | some d =>
      match dbFind key d with
      | some result =>
        (Except.ok result.value,
         addToMemoryCache now key result.value
           ⟨some result.etype, some result.timestamp⟩ r.2)
      | none => (Except.ok JSValue.null, r.2)

/-- Source `_scheduleAsyncCleanup()` (renderer.js lines 661-685): no-op when a
cleanup is already scheduled or in progress, otherwise raise the scheduled
flag and arm the 10 ms timer (the timer's firing is `cleanupTimerFire`). -/
def scheduleAsyncCleanup (st : CacheState) : CacheState :=
  if st.cleanupScheduled || st.cleanupInProgress then st
  else { st with cleanupScheduled := true }

/-- Source `set(key, value, type)` (renderer.js lines 454-511).  The L1 insert
happens first, unconditionally.  `await this.ensureDB()` sits before the
`try` block, so a failed database open rejects `set` with the L1 entry left
in place.  Otherwise the record `{key, value, type, size, timestamp: now,
accessTime: now}` is `put`; on success the async cleanup is scheduled, on a
request/transaction failure (`putOk = false`) the L1 entry for the key is
removed and the error rethrown. -/
def set (putOk : Bool) (now : Nat) (key : String) (value : JSValue)
    (etype : String) (st : CacheState) :
    Except CacheError Unit × CacheState :=
  let st1 := addToMemoryCache now key value ⟨some etype, none⟩ st
  match st1.db with
  | none => (Except.error CacheError.storageUnavailable, st1)
  | some d =>
    let item : DBEntry :=
      ⟨key, value, etype, estimateSize value, now, now⟩
    if putOk then
      (Except.ok (), scheduleAsyncCleanup { st1 with db := some (dbPut item d) })
    else
      (Except.error CacheError.requestError, removeFromMemoryCache key st1)

/-- Source `delete(key)` (renderer.js lines 535-556): remove from L1, then from L2. -/
def deleteOp (key : String) (st : CacheState) :
    Except CacheError Unit × CacheState :=
  let st1 := removeFromMemoryCache key st
  match st1.db with
  | none => (Except.error CacheError.storageUnavailable, st1)
  | some d => (Except.ok (), { st1 with db := some (dbDelete key d) })

/-- Source `clear()` (renderer.js lines 561-582): empty L1, then L2. -/
def clearOp (st : CacheState) : Except CacheError Unit × CacheState :=
  let st1 := clearMemoryCache st
  match st1.db with
  | none => (Except.error CacheError.storageUnavailable, st1)
  | some _ => (Except.ok (), { st1 with db := some [] })

/-- Source `_asyncCleanup()` (renderer.js lines 691-786).  Guard on
`cleanupInProgress`, raise it, and in a `try`/`finally` that always lowers
it: count the store; if the count is within `maxItems` do nothing; otherwise
walk the `accessTime` index, take the `count - maxItems` oldest rows, remove
each key from the memory cache (a synchronous JS effect that survives any
transaction failure) and issue a `delete` for each in one transaction.
`deleteOk` tells which IndexedDB deletes succeed; a failing delete aborts
the transaction, rolling back every delete in it, and rejects the pass. -/
def asyncCleanup (deleteOk : String → Bool) (st : CacheState) :
    Except CacheError Unit × CacheState :=
  if st.cleanupInProgress then (Except.ok (), st)
  else
    let st1 := { st with cleanupInProgress := true }
    match st1.db with
    | none =>
      (Except.error CacheError.storageUnavailable,
       { st1 with cleanupInProgress := false })
    | some d =>
      if d.length ≤ st1.maxItems then
        (Except.ok (), { st1 with cleanupInProgress := false })
      else
        let itemsToDelete := d.length - st1.maxItems
        let keysToDelete :=
          ((scanByAccessTime d).take itemsToDelete).map DBEntry.key
        let st2 := keysToDelete.foldl (fun s k => removeFromMemoryCache k s) st1
        if keysToDelete.all deleteOk then
          (Except.ok (),
           { st2 with
             db := some (d.filter (fun e => !(keysToDelete.contains e.key))),
             cleanupInProgress := false })
        else
          (Except.error CacheError.requestError,
           { st2 with cleanupInProgress := false })

/-- The body of the `setTimeout` callback armed by `_scheduleAsyncCleanup`
(renderer.js lines 671-684): lower the scheduled flag, abort quietly if a
pass is already running, otherwise run `_asyncCleanup` and swallow (log)
any error. -/
def cleanupTimerFire (deleteOk : String → Bool) (st : CacheState) : CacheState :=
  let st1 := { st with cleanupScheduled := false }
  if st1.cleanupInProgress then st1
  else (asyncCleanup deleteOk st1).2

/-- Source `cleanup()` (renderer.js lines 826-838): if a pass is in progress, poll
every 50 ms until `cleanupInProgress` clears and then return; `afterWait` is
the manager state once the in-flight pass has finished.  Only when no pass
was running does it await one `_asyncCleanup` pass. -/
def cleanup (deleteOk : String → Bool) (afterWait : CacheState)
    (st : CacheState) : CacheState :=
  if st.cleanupInProgress then afterWait
  else (asyncCleanup deleteOk st).2

/-- One externally triggered cache event, for stating whole-run invariants.
The manual `cleanup()` entry point is omitted because its wait step refers
to a concurrently finishing pass; the claims quantify over get, set,
delete, clear and the background eviction pass. -/
inductive CacheOp where
  | opGet (now : Nat) (key : String)
  | opSet (putOk : Bool) (now : Nat) (key : String) (value : JSValue) (etype : String)
  | opDelete (key : String)
  | opClear
  | opSchedule
  | opTimerFire (deleteOk : String → Bool)

/-- Apply one event to the manager state. -/
def applyOp (st : CacheState) : CacheOp → CacheState
  | CacheOp.opGet now key => (get now key st).2
  | CacheOp.opSet putOk now key value etype => (set putOk now key value etype st).2
  | CacheOp.opDelete key => (deleteOp key st).2
  | CacheOp.opClear => (clearOp st).2
  | CacheOp.opSchedule => scheduleAsyncCleanup st
  | CacheOp.opTimerFire deleteOk => cleanupTimerFire deleteOk st

/-- Run a sequence of events from a state. -/
def run (st : CacheState) (ops : List CacheOp) : CacheState :=
  ops.foldl applyOp st

/-! ### Association-list lemmas for the L1 map -/

lemma lookup_eq_none_iff {β : Type} (l : List (String × β)) (k : String) :
    l.lookup k = none ↔ ∀ p ∈ l, p.1 ≠ k := by
  induction l with
  | nil => simp
  | cons p t ih =>
    obtain ⟨a, b⟩ := p
    by_cases h : k = a
    · subst h; simp [List.lookup]
    · simp only [List.lookup, beq_iff_eq, if_neg h, List.mem_cons]
      rw [show (k == a) = false by simp [h]]
      simp only [ih]
      constructor
      · rintro hall q (rfl | hq)
        · simpa using fun hc => h hc.symm
        · exact hall q hq
      · intro hall q hq; exact hall q (Or.inr hq)

lemma lookup_some_mem {β : Type} {l : List (String × β)} {k : String} {v : β}
    (h : l.lookup k = some v) : (k, v) ∈ l := by
  induction l with
  | nil => simp [List.lookup] at h
  | cons p t ih =>
    obtain ⟨a, b⟩ := p
    by_cases hk : k = a
    · subst hk
      simp [List.lookup] at h
      simp [h]
    · simp only [List.lookup] at h
      rw [show (k == a) = false by simp [hk]] at h
      exact List.mem_cons_of_mem _ (ih h)

lemma map_fst_eraseP {β : Type} (l : List (String × β)) (k : String) :
    (l.eraseP (fun p => p.1 == k)).map Prod.fst = (l.map Prod.fst).erase k := by
  induction l with
  | nil => simp
  | cons p t ih =>
    by_cases h : p.1 = k
    · simp [List.eraseP_cons, List.erase_cons, h]
    · simp only [List.eraseP_cons, List.map_cons, List.erase_cons]
      rw [show (p.1 == k) = false by simp [h]]
      simp [ih]

lemma eraseP_eq_self_of_lookup_none {β : Type} {l : List (String × β)} {k : String}
    (h : l.lookup k = none) : l.eraseP (fun p => p.1 == k) = l := by
  apply List.eraseP_of_forall_not
  intro p hp
  have := (lookup_eq_none_iff l k).mp h p hp
  simp [this]

lemma length_eraseP_lookup_some {β : Type} {l : List (String × β)} {k : String} {v : β}
    (h : l.lookup k = some v) : (l.eraseP (fun p => p.1 == k)).length + 1 = l.length := by
  have hm : (k, v) ∈ l := lookup_some_mem h
  have := List.length_eraseP_of_mem hm (p := fun p => p.1 == k) (by simp)
  have hpos : 1 ≤ l.length := List.length_pos_of_mem hm
  omega

lemma lookup_eraseP_self {β : Type} {l : List (String × β)} {k : String}
    (hnd : (l.map Prod.fst).Nodup) :
    (l.eraseP (fun p => p.1 == k)).lookup k = none := by
  rw [lookup_eq_none_iff]
  intro p hp hpk
  subst hpk
  induction l with
  | nil => simp at hp
  | cons q t ih =>
    by_cases hq : q.1 = p.1
    · rw [List.eraseP_cons, show (q.1 == p.1) = true by simp [hq]] at hp
      simp only [List.map_cons, List.nodup_cons, hq] at hnd
      exact hnd.1 (List.mem_map_of_mem Prod.fst hp)
    · rw [List.eraseP_cons, show (q.1 == p.1) = false by simp [hq]] at hp
      simp only [List.map_cons, List.nodup_cons] at hnd
      rcases List.mem_cons.mp hp with rfl | hp'
      · exact hq rfl
      · exact ih hnd.2 hp'

lemma lookup_append_self {β : Type} {l : List (String × β)} {k : String} {v : β}
    (h : ∀ p ∈ l, p.1 ≠ k) : (l ++ [(k, v)]).lookup k = some v := by
  induction l with
  | nil => simp [List.lookup]
  | cons p t ih =>
    have hp : p.1 ≠ k := h p (List.mem_cons_self p t)
    simp only [List.cons_append, List.lookup]
    rw [show (k == p.1) = false by simp [Ne.symm hp]]
    exact ih fun q hq => h q (List.mem_cons_of_mem _ hq)

lemma lookup_none_sublist {β : Type} {l l' : List (String × β)} {k : String}
    (hsub : List.Sublist l' l) (h : l.lookup k = none) : l'.lookup k = none := by
  rw [lookup_eq_none_iff] at h ⊢
  exact fun p hp => h p (hsub.mem hp)

/-! ### Characterizing the L1 eviction loop -/

/-- As long as the access order lists exactly the map's keys, the eviction
loop drops `cache.length - maxItems` entries from the front of both. -/
lemma evictLoop_eq_drop (maxItems : Nat) :
    ∀ (order : List String) (cache : List (String × MemItem)),
      cache.map Prod.fst = order →
      evictLoop maxItems order cache =
        (order.drop (cache.length - maxItems),
         cache.drop (cache.length - maxItems)) := by
  intro order
  induction order with
  | nil =>
    intro cache h
    have : cache = [] := by
      cases cache with
      | nil => rfl
      | cons p t => simp at h
    subst this
    simp [evictLoop]
  | cons o rest ih =>
    intro cache h
    cases cache with
    | nil => simp at h
    | cons p t =>
      simp only [List.map_cons, List.cons.injEq] at h
      obtain ⟨hp, ht⟩ := h
      rw [evictLoop]
      by_cases hle : (p :: t).length ≤ maxItems
      · rw [if_pos hle]
        simp only [List.length_cons] at hle
        have h0 : t.length + 1 - maxItems = 0 := by omega
        simp [h0]
      · rw [if_neg hle]
        have hp' : (fun q => q.1 == o) p = true := by simp [hp]
        have herase : List.eraseP (fun q => q.1 == o) (p :: t) = t :=
          List.eraseP_cons_of_pos hp'
        rw [herase]
        rw [ih t ht]
        simp only [List.length_cons]
        have h2 : t.length + 1 - maxItems = (t.length - maxItems) + 1 := by
          simp only [List.length_cons] at hle; omega
        rw [h2]
        simp [List.drop_succ_cons]

/-- The number of L1 entries after the eviction loop is within the bound. -/
lemma evictLoop_length_le (maxItems : Nat) (order : List String)
    (cache : List (String × MemItem)) (h : cache.map Prod.fst = order) :
    (evictLoop maxItems order cache).2.length ≤ maxItems ∨ cache.length ≤ maxItems := by
  rw [evictLoop_eq_drop maxItems order cache h]
  simp only [List.length_drop]
  omega

/-! ### Field-preservation facts for the L1 helpers -/

@[simp] lemma removeFromMemoryCache_db (k : String) (st : CacheState) :
    (removeFromMemoryCache k st).db = st.db := by
  unfold removeFromMemoryCache; split <;> rfl

@[simp] lemma removeFromMemoryCache_maxItems (k : String) (st : CacheState) :
    (removeFromMemoryCache k st).maxItems = st.maxItems := by
  unfold removeFromMemoryCache; split <;> rfl

@[simp] lemma removeFromMemoryCache_memoryMaxItems (k : String) (st : CacheState) :
    (removeFromMemoryCache k st).memoryMaxItems = st.memoryMaxItems := by
  unfold removeFromMemoryCache; split <;> rfl

@[simp] lemma removeFromMemoryCache_cleanupInProgress (k : String) (st : CacheState) :
    (removeFromMemoryCache k st).cleanupInProgress = st.cleanupInProgress := by
  unfold removeFromMemoryCache; split <;> rfl

@[simp] lemma removeFromMemoryCache_cleanupScheduled (k : String) (st : CacheState) :
    (removeFromMemoryCache k st).cleanupScheduled = st.cleanupScheduled := by
  unfold removeFromMemoryCache; split <;> rfl

@[simp] lemma addToMemoryCache_db (now : Nat) (k : String) (v : JSValue)
    (m : MemMeta) (st : CacheState) :
    (addToMemoryCache now k v m st).db = st.db := by
  unfold addToMemoryCache; split <;> simp

@[simp] lemma addToMemoryCache_maxItems (now : Nat) (k : String) (v : JSValue)
    (m : MemMeta) (st : CacheState) :
    (addToMemoryCache now k v m st).maxItems = st.maxItems := by
  unfold addToMemoryCache; split <;> simp

@[simp] lemma addToMemoryCache_memoryMaxItems (now : Nat) (k : String) (v : JSValue)
    (m : MemMeta) (st : CacheState) :
    (addToMemoryCache now k v m st).memoryMaxItems = st.memoryMaxItems := by
  unfold addToMemoryCache; split <;> simp

@[simp] lemma addToMemoryCache_cleanupInProgress (now : Nat) (k : String) (v : JSValue)
    (m : MemMeta) (st : CacheState) :
    (addToMemoryCache now k v m st).cleanupInProgress = st.cleanupInProgress := by
  unfold addToMemoryCache; split <;> simp

@[simp] lemma addToMemoryCache_cleanupScheduled (now : Nat) (k : String) (v : JSValue)
    (m : MemMeta) (st : CacheState) :
    (addToMemoryCache now k v m st).cleanupScheduled = st.cleanupScheduled := by
  unfold addToMemoryCache; split <;> simp

@[simp] lemma getFromMemoryCache_db (now : Nat) (k : String) (st : CacheState) :
    (getFromMemoryCache now k st).2.db = st.db := by
  unfold getFromMemoryCache; split <;> simp

@[simp] lemma getFromMemoryCache_maxItems (now : Nat) (k : String) (st : CacheState) :
    (getFromMemoryCache now k st).2.maxItems = st.maxItems := by
  unfold getFromMemoryCache; split <;> simp

@[simp] lemma getFromMemoryCache_memoryMaxItems (now : Nat) (k : String) (st : CacheState) :
    (getFromMemoryCache now k st).2.memoryMaxItems = st.memoryMaxItems := by
  unfold getFromMemoryCache; split <;> simp

@[simp] lemma getFromMemoryCache_cleanupInProgress (now : Nat) (k : String) (st : CacheState) :
    (getFromMemoryCache now k st).2.cleanupInProgress = st.cleanupInProgress := by
  unfold getFromMemoryCache; split <;> simp

@[simp] lemma getFromMemoryCache_cleanupScheduled (now : Nat) (k : String) (st : CacheState) :
    (getFromMemoryCache now k st).2.cleanupScheduled = st.cleanupScheduled := by
  unfold getFromMemoryCache; split <;> simp

@[simp] lemma scheduleAsyncCleanup_memoryCache (st : CacheState) :
    (scheduleAsyncCleanup st).memoryCache = st.memoryCache := by
  unfold scheduleAsyncCleanup; split <;> rfl

@[simp] lemma scheduleAsyncCleanup_memoryAccessOrder (st : CacheState) :
    (scheduleAsyncCleanup st).memoryAccessOrder = st.memoryAccessOrder := by
  unfold scheduleAsyncCleanup; split <;> rfl

@[simp] lemma scheduleAsyncCleanup_db (st : CacheState) :
    (scheduleAsyncCleanup st).db = st.db := by
  unfold scheduleAsyncCleanup; split <;> rfl

@[simp] lemma scheduleAsyncCleanup_maxItems (st : CacheState) :
    (scheduleAsyncCleanup st).maxItems = st.maxItems := by
  unfold scheduleAsyncCleanup; split <;> rfl

@[simp] lemma scheduleAsyncCleanup_memoryMaxItems (st : CacheState) :
    (scheduleAsyncCleanup st).memoryMaxItems = st.memoryMaxItems := by
  unfold scheduleAsyncCleanup; split <;> rfl

/-! ### L1 well-formedness: the access order lists exactly the map's keys -/

/-- The `memoryAccessOrder` array lists the keys of `memoryCache` in order.
The code maintains this because every path that touches one structure
touches the other: insertion appends to both, removal erases from both,
eviction shifts the order and deletes the shifted key. -/
def MemKeysEq (st : CacheState) : Prop :=
  st.memoryCache.map Prod.fst = st.memoryAccessOrder

/-- The memory tier holds at most `memoryMaxItems` entries. -/
def MemBound (st : CacheState) : Prop :=
  st.memoryCache.length ≤ st.memoryMaxItems

instance (st : CacheState) : Decidable (MemKeysEq st) := by
  unfold MemKeysEq; infer_instance

instance (st : CacheState) : Decidable (MemBound st) := by
  unfold MemBound; infer_instance

/-- Closed form of `_addToMemoryCache` on a well-formed state: the key's old
entry is erased, the new item is appended at the most-recently-used end, and
the oldest entries are dropped from the front until the bound holds. -/
lemma addToMemoryCache_eq (now : Nat) (k : String) (v : JSValue) (m : MemMeta)
    (st : CacheState) (h : MemKeysEq st) :
    addToMemoryCache now k v m st =
      { st with
        memoryCache :=
          ((st.memoryCache.eraseP (fun p : String × MemItem => p.1 == k)) ++
              [(k, (⟨v, m, now⟩ : MemItem))]).drop
            ((st.memoryCache.eraseP (fun p : String × MemItem => p.1 == k)).length + 1 -
              st.memoryMaxItems),
        memoryAccessOrder :=
          ((st.memoryAccessOrder.erase k) ++ [k]).drop
            ((st.memoryCache.eraseP (fun p : String × MemItem => p.1 == k)).length + 1 -
              st.memoryMaxItems) } := by
  unfold MemKeysEq at h
  cases hlk : st.memoryCache.lookup k with
  | none =>
    have he : st.memoryCache.eraseP (fun p => p.1 == k) = st.memoryCache :=
      eraseP_eq_self_of_lookup_none hlk
    have hko : k ∉ st.memoryAccessOrder := by
      rw [← h]
      intro hmem
      obtain ⟨p, hp, hpk⟩ := List.mem_map.mp hmem
      exact (lookup_eq_none_iff _ _).mp hlk p hp hpk
    have heo : st.memoryAccessOrder.erase k = st.memoryAccessOrder :=
      List.erase_of_not_mem hko
    unfold addToMemoryCache
    rw [hlk]
    simp only [Option.isSome_none, Bool.false_eq_true, if_false]
    have hkeys : (st.memoryCache ++ [(k, (⟨v, m, now⟩ : MemItem))]).map Prod.fst =
        st.memoryAccessOrder ++ [k] := by simp [h]
    rw [evictLoop_eq_drop _ _ _ hkeys]
    rw [he, heo]
    simp
  | some item =>
    have hsome : (st.memoryCache.lookup k).isSome = true := by rw [hlk]; rfl
    unfold addToMemoryCache removeFromMemoryCache
    rw [hlk]
    simp only [Option.isSome_some, if_true, if_pos hsome]
    have hkeys : ((st.memoryCache.eraseP (fun p => p.1 == k)) ++
        [(k, (⟨v, m, now⟩ : MemItem))]).map Prod.fst =
        st.memoryAccessOrder.erase k ++ [k] := by
      simp [map_fst_eraseP, h]
    rw [evictLoop_eq_drop _ _ _ hkeys]
    simp

/-! ### Preservation of the invariant by every operation -/

/-- The reachable-state invariant for the memory tier. -/
def Inv (st : CacheState) : Prop := MemKeysEq st ∧ MemBound st

lemma inv_mk {st : CacheState} {c : List (String × MemItem)} {o : List String}
    (h1 : c.map Prod.fst = o) (h2 : c.length ≤ st.memoryMaxItems) :
    Inv { st with memoryCache := c, memoryAccessOrder := o } := ⟨h1, h2⟩

lemma inv_removeFromMemoryCache (k : String) (st : CacheState) (h : Inv st) :
    Inv (removeFromMemoryCache k st) := by
  obtain ⟨hk, hb⟩ := h
  have hk' : st.memoryCache.map Prod.fst = st.memoryAccessOrder := hk
  have hb' : st.memoryCache.length ≤ st.memoryMaxItems := hb
  unfold removeFromMemoryCache
  split
  · exact inv_mk (by rw [map_fst_eraseP, hk'])
      (le_trans (List.length_eraseP_le _) hb')
  · exact ⟨hk, hb⟩

lemma inv_addToMemoryCache (now : Nat) (k : String) (v : JSValue) (m : MemMeta)
    (st : CacheState) (h : Inv st) : Inv (addToMemoryCache now k v m st) := by
  obtain ⟨hk, _⟩ := h
  have hk' : st.memoryCache.map Prod.fst = st.memoryAccessOrder := hk
  rw [addToMemoryCache_eq now k v m st hk]
  refine inv_mk ?_ ?_
  · simp [List.map_drop, List.map_append, map_fst_eraseP, hk']
  · simp only [List.length_drop, List.length_append, List.length_cons,
      List.length_nil]
    omega

lemma inv_getFromMemoryCache (now : Nat) (k : String) (st : CacheState)
    (h : Inv st) : Inv (getFromMemoryCache now k st).2 := by
  obtain ⟨hk, hb⟩ := h
  have hk' : st.memoryCache.map Prod.fst = st.memoryAccessOrder := hk
  have hb' : st.memoryCache.length ≤ st.memoryMaxItems := hb
  unfold getFromMemoryCache
  cases hlk : st.memoryCache.lookup k with
  | none => exact ⟨hk, hb⟩
  | some item =>
    have hsome : (st.memoryCache.lookup k).isSome = true := by rw [hlk]; rfl
    have hlen := length_eraseP_lookup_some hlk
    simp only [removeFromMemoryCache, if_pos hsome]
    refine inv_mk ?_ ?_
    · simp [map_fst_eraseP, hk']
    · simp only [List.length_append, List.length_cons, List.length_nil]
      omega

lemma inv_clearMemoryCache (st : CacheState) (_h : Inv st) :
    Inv (clearMemoryCache st) := by
  unfold clearMemoryCache
  exact inv_mk (by simp) (by simp)

lemma inv_foldl_remove (ks : List String) (st : CacheState) (h : Inv st) :
    Inv (ks.foldl (fun s k => removeFromMemoryCache k s) st) := by
  induction ks generalizing st with
  | nil => exact h
  | cons k t ih => exact ih _ (inv_removeFromMemoryCache k st h)

lemma inv_get (now : Nat) (k : String) (st : CacheState) (h : Inv st) :
    Inv (get now k st).2 := by
  have h1 := inv_getFromMemoryCache now k st h
  simp only [get]
  split
  · exact h1
  · split
    · exact h1
    · split
      · exact inv_addToMemoryCache _ _ _ _ _ h1
      · exact h1

lemma inv_db_update (st : CacheState) (d : Option (List DBEntry)) (h : Inv st) :
    Inv { st with db := d } := h

lemma inv_scheduleAsyncCleanup (st : CacheState) (h : Inv st) :
    Inv (scheduleAsyncCleanup st) := by
  unfold scheduleAsyncCleanup
  split
  · exact h
  · exact h

lemma inv_set (putOk : Bool) (now : Nat) (k : String) (v : JSValue) (t : String)
    (st : CacheState) (h : Inv st) : Inv (set putOk now k v t st).2 := by
  have h1 := inv_addToMemoryCache now k v ⟨some t, none⟩ st h
  simp only [set]
  split
  · exact h1
  · split
    · exact inv_scheduleAsyncCleanup _ h1
    · exact inv_removeFromMemoryCache _ _ h1

lemma inv_deleteOp (k : String) (st : CacheState) (h : Inv st) :
    Inv (deleteOp k st).2 := by
  have h1 := inv_removeFromMemoryCache k st h
  simp only [deleteOp]
  split
  · exact h1
  · exact h1

lemma inv_clearOp (st : CacheState) (h : Inv st) : Inv (clearOp st).2 := by
  have h1 := inv_clearMemoryCache st h
  simp only [clearOp]
  split
  · exact h1
  · exact h1

lemma inv_asyncCleanup (deleteOk : String → Bool) (st : CacheState) (h : Inv st) :
    Inv (asyncCleanup deleteOk st).2 := by
  simp only [asyncCleanup]
  split
  · exact h
  · split
    · exact h
    · split
      · exact h
      · split
        · exact inv_foldl_remove _ _ h
        · exact inv_foldl_remove _ _ h

lemma inv_cleanupTimerFire (deleteOk : String → Bool) (st : CacheState)
    (h : Inv st) : Inv (cleanupTimerFire deleteOk st) := by
  simp only [cleanupTimerFire]
  split
  · exact h
  · exact inv_asyncCleanup _ _ h

lemma inv_applyOp (st : CacheState) (op : CacheOp) (h : Inv st) :
    Inv (applyOp st op) := by
  cases op with
  | opGet now key => exact inv_get now key st h
  | opSet putOk now key value etype => exact inv_set putOk now key value etype st h
  | opDelete key => exact inv_deleteOp key st h
  | opClear => exact inv_clearOp st h
  | opSchedule => exact inv_scheduleAsyncCleanup st h
  | opTimerFire deleteOk => exact inv_cleanupTimerFire deleteOk st h

lemma inv_run (st : CacheState) (ops : List CacheOp) (h : Inv st) :
    Inv (run st ops) := by
  induction ops generalizing st with
  | nil => exact h
  | cons op t ih => exact ih _ (inv_applyOp st op h)

lemma inv_initState (maxItems memoryMaxItems : Nat)
    (dbInit : Option (List DBEntry)) : Inv (initState maxItems memoryMaxItems dbInit) := by
  constructor
  · show _ = _; rfl
  · show List.length _ ≤ _; simp [initState]

/-! ### The access-time scan: a sorted permutation of the store -/

lemma accessLE_iff (a b : DBEntry) :
    accessLE a b = true ↔
      a.accessTime < b.accessTime ∨
        (a.accessTime = b.accessTime ∧ a.key ≤ b.key) := by
  simp [accessLE, Bool.or_eq_true, Bool.and_eq_true, decide_eq_true_eq, beq_iff_eq]

lemma accessLE_total (a b : DBEntry) : accessLE a b = true ∨ accessLE b a = true := by
  rw [accessLE_iff, accessLE_iff]
  rcases lt_trichotomy a.accessTime b.accessTime with h | h | h
  · exact Or.inl (Or.inl h)
  · rcases le_total a.key b.key with hk | hk
    · exact Or.inl (Or.inr ⟨h, hk⟩)
    · exact Or.inr (Or.inr ⟨h.symm, hk⟩)
  · exact Or.inr (Or.inl h)

lemma accessLE_trans {a b c : DBEntry} (h1 : accessLE a b = true)
    (h2 : accessLE b c = true) : accessLE a c = true := by
  rw [accessLE_iff] at h1 h2 ⊢
  rcases h1 with h1 | ⟨h1, hk1⟩ <;> rcases h2 with h2 | ⟨h2, hk2⟩
  · exact Or.inl (lt_trans h1 h2)
  · exact Or.inl (h2 ▸ h1)
  · exact Or.inl (h1 ▸ h2)
  · exact Or.inr ⟨h1.trans h2, le_trans hk1 hk2⟩

lemma insertByAccess_perm (e : DBEntry) (l : List DBEntry) :
    (insertByAccess e l).Perm (e :: l) := by
  induction l with
  | nil => simp [insertByAccess]
  | cons x xs ih =>
    unfold insertByAccess
    split
    · exact List.Perm.refl _
    · exact (List.Perm.cons x ih).trans (List.Perm.swap e x xs)

lemma scanByAccessTime_perm (l : List DBEntry) : (scanByAccessTime l).Perm l := by
  induction l with
  | nil => exact List.Perm.refl _
  | cons x xs ih =>
    unfold scanByAccessTime
    exact (insertByAccess_perm x _).trans (List.Perm.cons x ih)

lemma mem_insertByAccess {y e : DBEntry} {l : List DBEntry}
    (h : y ∈ insertByAccess e l) : y = e ∨ y ∈ l := by
  have := (insertByAccess_perm e l).mem_iff.mp h
  simpa using this

lemma insertByAccess_sorted (e : DBEntry) (l : List DBEntry)
    (h : l.Pairwise (fun a b => accessLE a b = true)) :
    (insertByAccess e l).Pairwise (fun a b => accessLE a b = true) := by
  induction l with
  | nil => simp [insertByAccess]
  | cons x xs ih =>
    rw [List.pairwise_cons] at h
    obtain ⟨hx, hxs⟩ := h
    unfold insertByAccess
    split
    · rename_i hle
      rw [List.pairwise_cons]
      refine ⟨?_, List.pairwise_cons.mpr ⟨hx, hxs⟩⟩
      intro y hy
      rcases List.mem_cons.mp hy with rfl | hy'
      · exact hle
      · exact accessLE_trans hle (hx y hy')
    · rename_i hle
      have hxe : accessLE x e = true := by
        rcases accessLE_total e x with h' | h'
        · exact absurd h' hle
        · exact h'
      rw [List.pairwise_cons]
      refine ⟨?_, ih hxs⟩
      intro y hy
      rcases mem_insertByAccess hy with rfl | hy'
      · exact hxe
      · exact hx y hy'

lemma scanByAccessTime_sorted (l : List DBEntry) :
    (scanByAccessTime l).Pairwise (fun a b => accessLE a b = true) := by
  induction l with
  | nil => simp [scanByAccessTime]
  | cons x xs ih => exact insertByAccess_sorted x _ ih

/-- The scan lists the store's rows in ascending last-access order. -/
lemma scanByAccessTime_sorted_accessTime (l : List DBEntry) :
    (scanByAccessTime l).Pairwise (fun a b => a.accessTime ≤ b.accessTime) := by
  refine (scanByAccessTime_sorted l).imp ?_
  intro a b h
  rw [accessLE_iff] at h
  rcases h with h | ⟨h, _⟩
  · exact le_of_lt h
  · exact le_of_eq h

/-! ### IndexedDB put/find lemmas -/

lemma dbFind_dbPut_self (item : DBEntry) (d : List DBEntry) :
    dbFind item.key (dbPut item d) = some item := by
  unfold dbPut
  split
  · rename_i hany
    induction d with
    | nil => simp at hany
    | cons e t ih =>
      rw [List.map_cons]
      by_cases he : e.key = item.key
      · rw [if_pos (by simp [he])]
        unfold dbFind
        exact List.find?_cons_of_pos _ (by simp)
      · rw [if_neg (by simp [he])]
        unfold dbFind
        rw [List.find?_cons_of_neg _ (by simp [he])]
        have hany' : (t.any fun x => x.key == item.key) = true := by
          simp only [List.any_cons, Bool.or_eq_true] at hany
          rcases hany with hc | h
          · exact absurd (by simpa using hc) he
          · exact h
        unfold dbFind at ih
        exact ih hany'
  · rename_i hany
    induction d with
    | nil =>
      unfold dbFind
      exact List.find?_cons_of_pos _ (by simp)
    | cons e t ih =>
      rw [List.cons_append]
      unfold dbFind
      have he : ¬(e.key == item.key) = true := by
        intro hc
        exact hany (by simp only [List.any_cons, Bool.or_eq_true]; exact Or.inl hc)
      have hstep : List.find? (fun x => x.key == item.key) (e :: (t ++ [item])) =
          List.find? (fun x => x.key == item.key) (t ++ [item]) :=
        List.find?_cons_of_neg _ he
      rw [hstep]
      have ht : ¬(t.any fun x => x.key == item.key) = true := by
        intro hc
        exact hany (by simp only [List.any_cons, Bool.or_eq_true]; exact Or.inr hc)
      unfold dbFind at ih
      exact ih ht

/-! ### Removal folds used by the eviction pass -/

lemma foldl_remove_db (ks : List String) (st : CacheState) :
    (ks.foldl (fun s k => removeFromMemoryCache k s) st).db = st.db := by
  induction ks generalizing st with
  | nil => rfl
  | cons k t ih => rw [List.foldl_cons, ih, removeFromMemoryCache_db]

lemma foldl_remove_cleanupScheduled (ks : List String) (st : CacheState) :
    (ks.foldl (fun s k => removeFromMemoryCache k s) st).cleanupScheduled =
      st.cleanupScheduled := by
  induction ks generalizing st with
  | nil => rfl
  | cons k t ih => rw [List.foldl_cons, ih, removeFromMemoryCache_cleanupScheduled]

lemma nodup_keys_removeFromMemoryCache (k : String) (st : CacheState)
    (h : (st.memoryCache.map Prod.fst).Nodup) :
    ((removeFromMemoryCache k st).memoryCache.map Prod.fst).Nodup := by
  unfold removeFromMemoryCache
  split
  · simpa [map_fst_eraseP] using h.erase k
  · exact h

lemma lookup_none_removeFromMemoryCache_self (k : String) (st : CacheState)
    (h : (st.memoryCache.map Prod.fst).Nodup) :
    (removeFromMemoryCache k st).memoryCache.lookup k = none := by
  unfold removeFromMemoryCache
  split
  · exact lookup_eraseP_self h
  · rename_i hcond
    cases hl : st.memoryCache.lookup k with
    | none => rfl
    | some item => simp [hl] at hcond

lemma lookup_none_removeFromMemoryCache (k k' : String) (st : CacheState)
    (h : st.memoryCache.lookup k = none) :
    (removeFromMemoryCache k' st).memoryCache.lookup k = none := by
  unfold removeFromMemoryCache
  split
  · exact lookup_none_sublist (List.eraseP_sublist _) h
  · exact h

lemma foldl_remove_preserves_none (ks : List String) (k : String)
    (st : CacheState) (h : st.memoryCache.lookup k = none) :
    (ks.foldl (fun s k' => removeFromMemoryCache k' s) st).memoryCache.lookup k
      = none := by
  induction ks generalizing st with
  | nil => exact h
  | cons k0 t ih =>
    rw [List.foldl_cons]
    exact ih _ (lookup_none_removeFromMemoryCache k k0 st h)

/-- After removing every key of `ks` from a memory cache with distinct keys,
none of them can be looked up any more. -/
lemma foldl_remove_lookup_none (ks : List String) (st : CacheState)
    (hnd : (st.memoryCache.map Prod.fst).Nodup) :
    ∀ k ∈ ks,
      (ks.foldl (fun s k' => removeFromMemoryCache k' s) st).memoryCache.lookup k
        = none := by
  induction ks generalizing st with
  | nil => simp
  | cons k0 t ih =>
    intro k hk
    rw [List.foldl_cons]
    rcases List.mem_cons.mp hk with rfl | hk'
    · exact foldl_remove_preserves_none t k _
        (lookup_none_removeFromMemoryCache_self k st hnd)
    · exact ih _ (nodup_keys_removeFromMemoryCache k0 st hnd) k hk'

/-! ### Branch characterizations of the public operations -/

lemma set_none (putOk : Bool) (now : Nat) (k : String) (v : JSValue) (t : String)
    (st : CacheState) (h : st.db = none) :
    set putOk now k v t st =
      (Except.error CacheError.storageUnavailable,
       addToMemoryCache now k v ⟨some t, none⟩ st) := by
  simp only [set, addToMemoryCache_db, h]

lemma set_some (now : Nat) (k : String) (v : JSValue) (t : String)
    (st : CacheState) (d : List DBEntry) (h : st.db = some d) :
    set true now k v t st =
      (Except.ok (),
       scheduleAsyncCleanup
         { addToMemoryCache now k v ⟨some t, none⟩ st with
           db := some (dbPut ⟨k, v, t, estimateSize v, now, now⟩ d) }) := by
  simp only [set, addToMemoryCache_db, h, if_true]

lemma set_fail (now : Nat) (k : String) (v : JSValue) (t : String)
    (st : CacheState) (d : List DBEntry) (h : st.db = some d) :
    set false now k v t st =
      (Except.error CacheError.requestError,
       removeFromMemoryCache k (addToMemoryCache now k v ⟨some t, none⟩ st)) := by
  simp only [set, addToMemoryCache_db, h, Bool.false_eq_true, if_false]

lemma getFromMemoryCache_fst (now : Nat) (k : String) (st : CacheState) :
    (getFromMemoryCache now k st).1 =
      (match st.memoryCache.lookup k with
       | none => JSValue.null
       | some itm => itm.value) := by
  unfold getFromMemoryCache
  cases st.memoryCache.lookup k <;> simp

lemma get_l1_hit (now : Nat) (k : String) (st : CacheState)
    (h : (getFromMemoryCache now k st).1 ≠ JSValue.null) :
    get now k st =
      (Except.ok (getFromMemoryCache now k st).1, (getFromMemoryCache now k st).2) := by
  simp only [get, if_pos h]

lemma get_l1_null (now : Nat) (k : String) (st : CacheState) (d : List DBEntry)
    (hv : (getFromMemoryCache now k st).1 = JSValue.null) (hdb : st.db = some d) :
    get now k st =
      (match dbFind k d with
       | some r =>
         (Except.ok r.value,
          addToMemoryCache now k r.value ⟨some r.etype, some r.timestamp⟩
            (getFromMemoryCache now k st).2)
       | none => (Except.ok JSValue.null, (getFromMemoryCache now k st).2)) := by
  simp only [get, hv, ne_eq, not_true_eq_false, if_false, getFromMemoryCache_db, hdb]

lemma get_degraded (now : Nat) (k : String) (st : CacheState)
    (hv : (getFromMemoryCache now k st).1 = JSValue.null) (hdb : st.db = none) :
    get now k st =
      (Except.error CacheError.storageUnavailable, (getFromMemoryCache now k st).2) := by
  simp only [get, hv, ne_eq, not_true_eq_false, if_false, getFromMemoryCache_db, hdb]

/-! ### The L1 map after an insert -/

/-- Helper `_addToMemoryCache` re-establishes the bound no matter how full the map
was before (the loop keeps evicting until `size ≤ memoryMaxItems`). -/
lemma addToMemoryCache_bound (now : Nat) (k : String) (v : JSValue) (m : MemMeta)
    (st : CacheState) (hkeq : MemKeysEq st) :
    (addToMemoryCache now k v m st).memoryCache.length ≤ st.memoryMaxItems := by
  rw [addToMemoryCache_eq now k v m st hkeq]
  simp only [List.length_drop, List.length_append, List.length_cons, List.length_nil]
  omega

/-- After `_addToMemoryCache`, the inserted key maps to the fresh item —
unless `memoryMaxItems = 0`, in which case the eviction loop immediately
evicts everything including the fresh entry. -/
lemma lookup_addToMemoryCache (now : Nat) (k : String) (v : JSValue) (m : MemMeta)
    (st : CacheState) (hkeq : MemKeysEq st)
    (hnd : (st.memoryCache.map Prod.fst).Nodup) :
    (addToMemoryCache now k v m st).memoryCache.lookup k =
      if 1 ≤ st.memoryMaxItems then some (⟨v, m, now⟩ : MemItem) else none := by
  rw [addToMemoryCache_eq now k v m st hkeq]
  have hEnone :
      (st.memoryCache.eraseP (fun p : String × MemItem => p.1 == k)).lookup k = none :=
    lookup_eraseP_self hnd
  have hEkeys :
      ∀ p ∈ st.memoryCache.eraseP (fun p : String × MemItem => p.1 == k), p.1 ≠ k :=
    (lookup_eq_none_iff _ _).mp hEnone
  by_cases hmax : 1 ≤ st.memoryMaxItems
  · rw [if_pos hmax]
    rw [List.drop_append_eq_append_drop]
    have h0 : (st.memoryCache.eraseP (fun p : String × MemItem => p.1 == k)).length + 1 -
        st.memoryMaxItems -
        (st.memoryCache.eraseP (fun p : String × MemItem => p.1 == k)).length = 0 := by
      omega
    rw [h0, List.drop_zero]
    exact lookup_append_self (fun p hp => hEkeys p (List.mem_of_mem_drop hp))
  · rw [if_neg hmax]
    have hmax0 : st.memoryMaxItems = 0 := by omega
    have hall :
        ((st.memoryCache.eraseP (fun p : String × MemItem => p.1 == k)) ++
            [(k, (⟨v, m, now⟩ : MemItem))]).length ≤
          (st.memoryCache.eraseP (fun p : String × MemItem => p.1 == k)).length + 1 -
            st.memoryMaxItems := by
      simp only [List.length_append, List.length_cons, List.length_nil]
      omega
    rw [List.drop_eq_nil_of_le hall]
    rfl

lemma nodup_keys_addToMemoryCache (now : Nat) (k : String) (v : JSValue)
    (m : MemMeta) (st : CacheState) (hkeq : MemKeysEq st)
    (hnd : (st.memoryCache.map Prod.fst).Nodup) :
    ((addToMemoryCache now k v m st).memoryCache.map Prod.fst).Nodup := by
  rw [addToMemoryCache_eq now k v m st hkeq]
  have hkeq' : st.memoryCache.map Prod.fst = st.memoryAccessOrder := hkeq
  have hbase :
      ((st.memoryCache.eraseP (fun p : String × MemItem => p.1 == k)) ++
          [(k, (⟨v, m, now⟩ : MemItem))]).map Prod.fst =
        (st.memoryCache.map Prod.fst).erase k ++ [k] := by
    simp [map_fst_eraseP]
  have hnd2 : ((st.memoryCache.map Prod.fst).erase k ++ [k]).Nodup := by
    rw [List.nodup_append]
    refine ⟨hnd.erase k, List.nodup_singleton k, ?_⟩
    intro a ha hb
    rw [List.mem_singleton] at hb
    subst hb
    exact (List.Nodup.mem_erase_iff hnd).mp ha |>.1 rfl
  rw [List.map_drop, hbase]
  exact List.Nodup.sublist (List.drop_sublist _ _) hnd2

/-! ### The eviction pass always lowers its flag -/

lemma asyncCleanup_flags (f : String → Bool) (st : CacheState)
    (h : st.cleanupInProgress = false) :
    (asyncCleanup f st).2.cleanupInProgress = false ∧
    (asyncCleanup f st).2.cleanupScheduled = st.cleanupScheduled := by
  simp only [asyncCleanup, h, Bool.false_eq_true, if_false]
  split
  · exact ⟨rfl, rfl⟩
  · split
    · exact ⟨rfl, rfl⟩
    · split
      · exact ⟨rfl, foldl_remove_cleanupScheduled _ _⟩
      · exact ⟨rfl, foldl_remove_cleanupScheduled _ _⟩

/-! ### Counting survivors of an eviction pass -/

/-- Deleting the keys of the first `n` scan rows from a store with distinct
keys leaves exactly `length - n` rows. -/
lemma filter_not_doomed_length (d : List DBEntry) (n : Nat)
    (hnd : (d.map DBEntry.key).Nodup) :
    (d.filter (fun e =>
      !((((scanByAccessTime d).take n).map DBEntry.key).contains e.key))).length
      = d.length - n := by
  have hperm := scanByAccessTime_perm d
  have hknd : ((scanByAccessTime d).map DBEntry.key).Nodup :=
    ((hperm.map DBEntry.key).nodup_iff).mpr hnd
  have hfperm :
      (d.filter (fun e =>
        !((((scanByAccessTime d).take n).map DBEntry.key).contains e.key))).length =
      ((scanByAccessTime d).filter (fun e =>
        !((((scanByAccessTime d).take n).map DBEntry.key).contains e.key))).length :=
    ((hperm.filter _).length_eq).symm
  rw [hfperm]
  have hsplit := (List.take_append_drop n (scanByAccessTime d)).symm
  rw [show (scanByAccessTime d).filter (fun e =>
      !((((scanByAccessTime d).take n).map DBEntry.key).contains e.key)) =
    (((scanByAccessTime d).take n ++ (scanByAccessTime d).drop n).filter (fun e =>
      !((((scanByAccessTime d).take n).map DBEntry.key).contains e.key))) by
    rw [← hsplit]]
  rw [List.filter_append]
  have hdisj : ∀ e ∈ (scanByAccessTime d).drop n,
      e.key ∉ ((scanByAccessTime d).take n).map DBEntry.key := by
    have hmapsplit : (scanByAccessTime d).map DBEntry.key =
        ((scanByAccessTime d).take n).map DBEntry.key ++
          ((scanByAccessTime d).drop n).map DBEntry.key := by
      rw [← List.map_append, List.take_append_drop]
    rw [hmapsplit, List.nodup_append] at hknd
    intro e he hmem
    exact hknd.2.2 hmem (List.mem_map_of_mem DBEntry.key he)
  have h1 : ((scanByAccessTime d).take n).filter (fun e =>
      !((((scanByAccessTime d).take n).map DBEntry.key).contains e.key)) = [] := by
    rw [List.filter_eq_nil_iff]
    intro e he
    have hm : e.key ∈ ((scanByAccessTime d).take n).map DBEntry.key :=
      List.mem_map_of_mem DBEntry.key he
    have hc : ((((scanByAccessTime d).take n).map DBEntry.key).contains e.key) = true := by
      simp only [List.contains]
      exact List.elem_iff.mpr hm
    rw [hc]
    simp
  have h2 : ((scanByAccessTime d).drop n).filter (fun e =>
      !((((scanByAccessTime d).take n).map DBEntry.key).contains e.key)) =
      (scanByAccessTime d).drop n := by
    rw [List.filter_eq_self]
    intro e he
    have hm := hdisj e he
    have hc : ((((scanByAccessTime d).take n).map DBEntry.key).contains e.key) = false := by
      simp only [List.contains]
      cases hcc : List.elem e.key (((scanByAccessTime d).take n).map DBEntry.key) with
      | false => rfl
      | true => exact absurd (List.elem_iff.mp hcc) hm
    rw [hc]
    rfl
  rw [h1, h2, List.nil_append, List.length_drop, hperm.length_eq]

/-! ## The claims -/

/-- C1: for every key `k`, value `v` and type `t`, if `set(k, v, t)` succeeds
(and, this being the immediate sequential composition, no eviction pass runs
in between), the immediately following `get(k)` returns `v` — served from the
L1 entry that `set` populated, or from the persistent tier on an L1 miss
(`memoryMaxItems = 0`, or a stored `null` value, which L1 reports as a miss). -/
theorem round_trip_set_get (st : CacheState) (k t : String) (v : JSValue)
    (now now' : Nat) (hkeq : MemKeysEq st)
    (hnd : (st.memoryCache.map Prod.fst).Nodup)
    (hok : (set true now k v t st).1 = Except.ok ()) :
    (get now' k (set true now k v t st).2).1 = Except.ok v := by
  cases hdb : st.db with
  | none =>
    rw [set_none true now k v t st hdb] at hok
    exact absurd hok (by simp)
  | some d =>
    have hst2 : (set true now k v t st).2 =
        scheduleAsyncCleanup
          { addToMemoryCache now k v ⟨some t, none⟩ st with
            db := some (dbPut ⟨k, v, t, estimateSize v, now, now⟩ d) } := by
      rw [set_some now k v t st d hdb]
    have hlkA := lookup_addToMemoryCache now k v ⟨some t, none⟩ st hkeq hnd
    have hm : (set true now k v t st).2.memoryCache.lookup k =
        (if 1 ≤ st.memoryMaxItems then some (⟨v, ⟨some t, none⟩, now⟩ : MemItem)
         else none) := by
      rw [hst2, scheduleAsyncCleanup_memoryCache]
      exact hlkA
    have hdb2 : (set true now k v t st).2.db =
        some (dbPut ⟨k, v, t, estimateSize v, now, now⟩ d) := by
      rw [hst2, scheduleAsyncCleanup_db]
    have hfind : dbFind k (dbPut ⟨k, v, t, estimateSize v, now, now⟩ d) =
        some ⟨k, v, t, estimateSize v, now, now⟩ :=
      dbFind_dbPut_self ⟨k, v, t, estimateSize v, now, now⟩ d
    by_cases hmax : 1 ≤ st.memoryMaxItems
    · rw [if_pos hmax] at hm
      by_cases hv : v = JSValue.null
      · have hfst : (getFromMemoryCache now' k (set true now k v t st).2).1 =
            JSValue.null := by
          rw [getFromMemoryCache_fst, hm]
          exact hv
        rw [get_l1_null now' k _ _ hfst hdb2, hfind]
      · have hfst : (getFromMemoryCache now' k (set true now k v t st).2).1 = v := by
          rw [getFromMemoryCache_fst, hm]
        have hne : (getFromMemoryCache now' k (set true now k v t st).2).1 ≠
            JSValue.null := by
          rw [hfst]; exact hv
        rw [get_l1_hit now' k _ hne, hfst]
    · rw [if_neg hmax] at hm
      have hfst : (getFromMemoryCache now' k (set true now k v t st).2).1 =
          JSValue.null := by
        rw [getFromMemoryCache_fst, hm]
      rw [get_l1_null now' k _ _ hfst hdb2, hfind]

/-- Witness for C1 at a concrete state: inserting `"v"` under key `"k"` into
a fresh manager and reading it straight back yields `"v"`. -/
theorem round_trip_set_get_witness :
    (get 1 "k" (set true 0 "k" (JSValue.str "v") "T"
      (initState 3 2 (some []))).2).1 = Except.ok (JSValue.str "v") :=
  round_trip_set_get (initState 3 2 (some [])) "k" "T" (JSValue.str "v") 0 1
    (by decide) (by decide) (by rfl)

/-- C2: along every sequence of cache operations (get, set, delete, clear,
schedule, eviction pass) from a fresh manager, the memory tier never holds
more than `memoryMaxItems` entries; moreover a single `_addToMemoryCache`
call re-establishes the bound synchronously before returning, whatever the
prior size, as long as the access order mirrors the map's keys. -/
theorem memory_bound_invariant :
    (∀ (maxItems memoryMaxItems : Nat) (dbInit : Option (List DBEntry))
       (ops : List CacheOp),
       MemBound (run (initState maxItems memoryMaxItems dbInit) ops)) ∧
    (∀ (st : CacheState) (now : Nat) (k : String) (v : JSValue) (m : MemMeta),
       MemKeysEq st →
       (addToMemoryCache now k v m st).memoryCache.length ≤ st.memoryMaxItems) := by
  constructor
  · intro maxI memI dbI ops
    exact (inv_run _ ops (inv_initState maxI memI dbI)).2
  · intro st now k v m hkeq
    exact addToMemoryCache_bound now k v m st hkeq

/-- Witness for C2: a burst of three inserts against `memoryMaxItems = 2`
stays within the bound, and one more insert re-establishes it. -/
theorem memory_bound_invariant_witness :
    MemBound (run (initState 3 2 (some []))
      [CacheOp.opSet true 0 "a" (JSValue.str "x") "T",
       CacheOp.opSet true 1 "b" (JSValue.str "y") "T",
       CacheOp.opSet true 2 "c" (JSValue.str "z") "T"]) ∧
    (addToMemoryCache 5 "d" (JSValue.str "w") ⟨some "T", none⟩
      (run (initState 3 2 (some []))
        [CacheOp.opSet true 0 "a" (JSValue.str "x") "T"])).memoryCache.length ≤ 2 :=
  ⟨memory_bound_invariant.1 3 2 (some []) _,
   memory_bound_invariant.2
     (run (initState 3 2 (some [])) [CacheOp.opSet true 0 "a" (JSValue.str "x") "T"])
     5 "d" (JSValue.str "w") ⟨some "T", none⟩ (by decide)⟩

/-- C4: if the IndexedDB `put` inside `set(k, v, t)` fails, `set` rejects
with that request error, the L1 entry it had inserted is removed, and a
subsequent `get(k)` (for a key not previously persisted) returns `null` —
no orphaned L1 entry survives the failed `set`. -/
theorem set_failure_rollback (st : CacheState) (k t : String) (v : JSValue)
    (d : List DBEntry) (now now' : Nat)
    (hkeq : MemKeysEq st) (hnd : (st.memoryCache.map Prod.fst).Nodup)
    (hdb : st.db = some d) (hfresh : dbFind k d = none) :
    (set false now k v t st).1 = Except.error CacheError.requestError ∧
    (set false now k v t st).2.memoryCache.lookup k = none ∧
    (get now' k (set false now k v t st).2).1 = Except.ok JSValue.null := by
  have hst2 : (set false now k v t st).2 =
      removeFromMemoryCache k (addToMemoryCache now k v ⟨some t, none⟩ st) := by
    rw [set_fail now k v t st d hdb]
  have hnd2 := nodup_keys_addToMemoryCache now k v ⟨some t, none⟩ st hkeq hnd
  have hm : (set false now k v t st).2.memoryCache.lookup k = none := by
    rw [hst2]
    exact lookup_none_removeFromMemoryCache_self k _ hnd2
  refine ⟨by rw [set_fail now k v t st d hdb], hm, ?_⟩
  have hdb2 : (set false now k v t st).2.db = some d := by
    rw [hst2, removeFromMemoryCache_db, addToMemoryCache_db, hdb]
  have hfst : (getFromMemoryCache now' k (set false now k v t st).2).1 =
      JSValue.null := by
    rw [getFromMemoryCache_fst, hm]
  rw [get_l1_null now' k _ d hfst hdb2, hfresh]

/-- Witness for C4: a failed put against a fresh manager. -/
theorem set_failure_rollback_witness :
    (set false 0 "k" (JSValue.str "v") "T" (initState 3 2 (some []))).1 =
      Except.error CacheError.requestError ∧
    (set false 0 "k" (JSValue.str "v") "T"
      (initState 3 2 (some []))).2.memoryCache.lookup "k" = none ∧
    (get 1 "k" (set false 0 "k" (JSValue.str "v") "T"
      (initState 3 2 (some []))).2).1 = Except.ok JSValue.null :=
  set_failure_rollback (initState 3 2 (some [])) "k" "T" (JSValue.str "v") [] 0 1
    (by decide) (by decide) (by rfl) (by rfl)

/-- C6: the memory tier is strict LRU.  A hit returns the stored value and
promotes the key to the most-recently-used end of the recency order; a miss
returns `null` and leaves the whole state untouched; an insert appends the
key at the most-recently-used end and then drops entries from the oldest end
of the recency order, exactly as many as needed, so that the bound holds
(the evicted keys are `take (size - bound)` of the pre-eviction order,
oldest first). -/
theorem memory_tier_lru (st : CacheState) (k : String) (now : Nat)
    (v : JSValue) (m : MemMeta) (hkeq : MemKeysEq st) :
    (∀ itm : MemItem, st.memoryCache.lookup k = some itm →
       (getFromMemoryCache now k st).1 = itm.value ∧
       (getFromMemoryCache now k st).2.memoryAccessOrder =
         st.memoryAccessOrder.erase k ++ [k]) ∧
    (st.memoryCache.lookup k = none →
       getFromMemoryCache now k st = (JSValue.null, st)) ∧
    ((addToMemoryCache now k v m st).memoryAccessOrder =
       ((st.memoryAccessOrder.erase k) ++ [k]).drop
         (((st.memoryAccessOrder.erase k) ++ [k]).length - st.memoryMaxItems) ∧
     (addToMemoryCache now k v m st).memoryCache.length ≤ st.memoryMaxItems) := by
  have hkeq' : st.memoryCache.map Prod.fst = st.memoryAccessOrder := hkeq
  refine ⟨?_, ?_, ?_, addToMemoryCache_bound now k v m st hkeq⟩
  · intro itm hlk
    have hsome : (st.memoryCache.lookup k).isSome = true := by rw [hlk]; rfl
    constructor
    · simp [getFromMemoryCache, hlk]
    · simp [getFromMemoryCache, hlk, removeFromMemoryCache, hsome]
  · intro h
    simp [getFromMemoryCache, h]
  · rw [addToMemoryCache_eq now k v m st hkeq]
    have hlen : (st.memoryCache.eraseP (fun p : String × MemItem => p.1 == k)).length =
        (st.memoryAccessOrder.erase k).length := by
      have h2 := congrArg List.length (map_fst_eraseP st.memoryCache k)
      rw [List.length_map, hkeq'] at h2
      exact h2
    simp only [List.length_append, List.length_cons, List.length_nil, hlen]

/-- A concrete two-entry memory tier for exercising the LRU theorem. -/
def lruState : CacheState :=
  { maxItems := 3, memoryMaxItems := 2,
    memoryCache :=
      [("a", ⟨JSValue.str "x", ⟨some "T", none⟩, 1⟩),
       ("b", ⟨JSValue.str "y", ⟨some "T", none⟩, 2⟩)],
    memoryAccessOrder := ["a", "b"],
    db := some [], cleanupInProgress := false, cleanupScheduled := false }

/-- Witness for C6: a hit on `"a"` promotes it past `"b"`; a miss on `"z"`
changes nothing; inserting `"c"` into the full tier evicts the oldest key
`"a"`. -/
theorem memory_tier_lru_witness :
    ((getFromMemoryCache 5 "a" lruState).1 = JSValue.str "x" ∧
     (getFromMemoryCache 5 "a" lruState).2.memoryAccessOrder = ["b", "a"]) ∧
    getFromMemoryCache 5 "z" lruState = (JSValue.null, lruState) ∧
    ((addToMemoryCache 5 "c" (JSValue.str "z") ⟨some "T", none⟩
        lruState).memoryAccessOrder = ["b", "c"] ∧
     (addToMemoryCache 5 "c" (JSValue.str "z") ⟨some "T", none⟩
        lruState).memoryCache.length ≤ 2) := by
  refine ⟨?_, ?_, ?_⟩
  · have h := (memory_tier_lru lruState "a" 5 (JSValue.str "z") ⟨some "T", none⟩
      (by decide)).1 ⟨JSValue.str "x", ⟨some "T", none⟩, 1⟩ (by rfl)
    exact ⟨h.1, by rw [h.2]; rfl⟩
  · exact (memory_tier_lru lruState "z" 5 (JSValue.str "z") ⟨some "T", none⟩
      (by decide)).2.1 (by rfl)
  · have h := (memory_tier_lru lruState "c" 5 (JSValue.str "z") ⟨some "T", none⟩
      (by decide)).2.2
    exact ⟨by rw [h.1]; rfl, h.2⟩

/-- C3: an eviction pass run in isolation (no pass already in progress, all
deletes succeeding): when the store's count is within `maxItems` it deletes
nothing; otherwise it deletes exactly `count - maxItems` entries — the keys
of the first `count - maxItems` rows of the access-time scan, which is a
permutation of the store sorted by ascending `lastAccessAt` (oldest first,
ties by key) — removing each from both the memory tier and the persistent
tier, leaving the persistent tier with exactly `maxItems` rows. -/
theorem eviction_pass_trims_to_max (st : CacheState) (d : List DBEntry)
    (h1 : st.cleanupInProgress = false) (h2 : st.db = some d)
    (hdnd : (d.map DBEntry.key).Nodup)
    (hmnd : (st.memoryCache.map Prod.fst).Nodup) :
    (d.length ≤ st.maxItems →
       (asyncCleanup (fun _ => true) st).1 = Except.ok () ∧
       (asyncCleanup (fun _ => true) st).2.db = some d ∧
       (asyncCleanup (fun _ => true) st).2.memoryCache = st.memoryCache) ∧
    (st.maxItems < d.length →
       (asyncCleanup (fun _ => true) st).1 = Except.ok () ∧
       (asyncCleanup (fun _ => true) st).2.db =
         some (d.filter (fun e =>
           !((((scanByAccessTime d).take (d.length - st.maxItems)).map
               DBEntry.key).contains e.key))) ∧
       ((asyncCleanup (fun _ => true) st).2.db.getD []).length = st.maxItems ∧
       (scanByAccessTime d).Perm d ∧
       (scanByAccessTime d).Pairwise (fun a b => a.accessTime ≤ b.accessTime) ∧
       (∀ k ∈ ((scanByAccessTime d).take (d.length - st.maxItems)).map DBEntry.key,
          (asyncCleanup (fun _ => true) st).2.memoryCache.lookup k = none)) := by
  constructor
  · intro hle
    simp only [asyncCleanup, h1, Bool.false_eq_true, if_false, h2, hle, if_true]
    exact ⟨by trivial, by trivial, by trivial⟩
  · intro hlt
    have hnle : ¬d.length ≤ st.maxItems := not_le.mpr hlt
    have hall : ∀ (l : List String), (l.all fun _ => true) = true := by
      intro l; simp
    simp only [asyncCleanup, h1, Bool.false_eq_true, if_false, h2, hnle, hall,
      if_true]
    refine ⟨by trivial, by trivial, ?_, scanByAccessTime_perm d,
      scanByAccessTime_sorted_accessTime d, ?_⟩
    · show (d.filter _).length = st.maxItems
      rw [filter_not_doomed_length d (d.length - st.maxItems) hdnd]
      omega
    · intro k hk
      exact foldl_remove_lookup_none _ _ (by exact hmnd) k hk

/-- A four-row store over capacity 2 for exercising the eviction pass. -/
def overfullState : CacheState :=
  { maxItems := 2, memoryMaxItems := 2,
    memoryCache := [("c", ⟨JSValue.str "z", ⟨some "T", none⟩, 3⟩)],
    memoryAccessOrder := ["c"],
    db := some
      [⟨"a", JSValue.str "x", "T", 1, 1, 1⟩,
       ⟨"b", JSValue.str "y", "T", 1, 2, 2⟩,
       ⟨"c", JSValue.str "z", "T", 1, 3, 3⟩,
       ⟨"d", JSValue.str "w", "T", 1, 4, 4⟩],
    cleanupInProgress := false, cleanupScheduled := false }

/-- Witness for C3: trimming the four-row store deletes the two
least-recently-accessed rows and leaves exactly `maxItems = 2`. -/
theorem eviction_pass_trims_to_max_witness :
    (asyncCleanup (fun _ => true) overfullState).1 = Except.ok () ∧
    ((asyncCleanup (fun _ => true) overfullState).2.db.getD []).length = 2 := by
  have h := (eviction_pass_trims_to_max overfullState
    ((overfullState.db).getD []) rfl rfl (by decide) (by decide)).2 (by decide)
  exact ⟨h.1, h.2.2.1⟩

/-- C5: `_scheduleAsyncCleanup` is a no-op whenever a cleanup is already
scheduled or in progress (idempotent coalescing); `_asyncCleanup` invoked
while a pass is running is a guarded no-op — the flag is the mutual
exclusion that keeps two passes from running concurrently; and a timer
firing when no pass is running ends with both flags lowered (the scheduler
returns to Idle) whichever deletes fail. -/
theorem scheduler_coalesces_and_returns_idle (st : CacheState)
    (deleteOk : String → Bool) :
    (st.cleanupScheduled = true ∨ st.cleanupInProgress = true →
       scheduleAsyncCleanup st = st) ∧
    (st.cleanupInProgress = true →
       asyncCleanup deleteOk st = (Except.ok (), st)) ∧
    (st.cleanupInProgress = false →
       (cleanupTimerFire deleteOk st).cleanupInProgress = false ∧
       (cleanupTimerFire deleteOk st).cleanupScheduled = false) := by
  refine ⟨?_, ?_, ?_⟩
  · intro h
    unfold scheduleAsyncCleanup
    rw [if_pos]
    rcases h with h | h <;> simp [h]
  · intro h
    unfold asyncCleanup
    rw [if_pos h]
  · intro h
    simp only [cleanupTimerFire]
    rw [if_neg (by simp [h] :
      ¬({ st with cleanupScheduled := false } : CacheState).cleanupInProgress = true)]
    have hfl := asyncCleanup_flags deleteOk { st with cleanupScheduled := false } h
    exact ⟨hfl.1, by rw [hfl.2]⟩

/-- A manager with a pass scheduled, and one with a pass running. -/
def scheduledState : CacheState :=
  { initState 2 2 (some []) with cleanupScheduled := true }

def runningState : CacheState :=
  { initState 2 2 (some []) with cleanupInProgress := true }

/-- Witness for C5 at concrete states, with a failing delete oracle. -/
theorem scheduler_coalesces_and_returns_idle_witness :
    scheduleAsyncCleanup scheduledState = scheduledState ∧
    asyncCleanup (fun _ => false) runningState = (Except.ok (), runningState) ∧
    ((cleanupTimerFire (fun _ => false) scheduledState).cleanupInProgress = false ∧
     (cleanupTimerFire (fun _ => false) scheduledState).cleanupScheduled = false) :=
  ⟨(scheduler_coalesces_and_returns_idle scheduledState (fun _ => false)).1
     (Or.inl rfl),
   (scheduler_coalesces_and_returns_idle runningState (fun _ => false)).2.1 rfl,
   (scheduler_coalesces_and_returns_idle scheduledState (fun _ => false)).2.2 rfl⟩

/-! ### C7: `set` on an existing key resets the creation timestamp -/

/-- The manager after a first `set("k", "a")` at time 5. -/
def c7First : CacheState :=
  (set true 5 "k" (JSValue.str "a") "T" (initState 1000 100 (some []))).2

/-- The manager after re-setting `"k"` to `"b"` at time 9. -/
def c7Second : CacheState := (set true 9 "k" (JSValue.str "b") "T" c7First).2

/-- C7 counterexample: after inserting `"k"` at time 5 (stored `timestamp`,
the spec's `createdAt`, is 5) and re-setting it at time 9, the stored record
has `timestamp` 9, not the first-insertion value 5 — `set` builds a fresh
record with `timestamp: Date.now()` and IndexedDB `put` replaces the record
wholesale, so `createdAt` IS reset, contrary to the claim. -/
theorem set_resets_createdAt_counterexample :
    (dbFind "k" (c7First.db.getD [])).map DBEntry.timestamp = some 5 ∧
    (dbFind "k" (c7Second.db.getD [])).map DBEntry.timestamp = some 9 ∧
    (dbFind "k" (c7Second.db.getD [])).map DBEntry.timestamp ≠ some 5 :=
  ⟨rfl, rfl, by decide⟩

/-- C7 amended: a successful `set(k, v, t)` on an existing key replaces the
stored record wholesale with `{key, value, type, size, timestamp: now,
accessTime: now}` — `lastAccessAt` is refreshed, and `createdAt`
(`timestamp`) is reset to the time of this `set` rather than keeping its
first-insertion value. -/
theorem set_replaces_record_wholesale (st : CacheState) (k t : String)
    (v : JSValue) (d : List DBEntry) (now : Nat) (hdb : st.db = some d) :
    (set true now k v t st).2.db =
      some (dbPut ⟨k, v, t, estimateSize v, now, now⟩ d) ∧
    dbFind k ((set true now k v t st).2.db.getD []) =
      some ⟨k, v, t, estimateSize v, now, now⟩ := by
  have h2 : (set true now k v t st).2.db =
      some (dbPut ⟨k, v, t, estimateSize v, now, now⟩ d) := by
    rw [set_some now k v t st d hdb, scheduleAsyncCleanup_db]
  refine ⟨h2, ?_⟩
  rw [h2]
  exact dbFind_dbPut_self ⟨k, v, t, estimateSize v, now, now⟩ d

/-- Witness for the amended C7 at the concrete re-set of `"k"`. -/
theorem set_replaces_record_wholesale_witness :
    (set true 9 "k" (JSValue.str "b") "T" c7First).2.db =
      some (dbPut ⟨"k", JSValue.str "b", "T", estimateSize (JSValue.str "b"), 9, 9⟩
        [⟨"k", JSValue.str "a", "T", estimateSize (JSValue.str "a"), 5, 5⟩]) ∧
    dbFind "k" ((set true 9 "k" (JSValue.str "b") "T" c7First).2.db.getD []) =
      some ⟨"k", JSValue.str "b", "T", estimateSize (JSValue.str "b"), 9, 9⟩ :=
  set_replaces_record_wholesale c7First "k" "T" (JSValue.str "b")
    [⟨"k", JSValue.str "a", "T", estimateSize (JSValue.str "a"), 5, 5⟩] 9 (by rfl)

/-! ### C8: manual cleanup skips the trim when a pass was in flight -/

/-- A manager whose store is over capacity while a pass is marked running. -/
def c8Busy : CacheState :=
  { maxItems := 1, memoryMaxItems := 2, memoryCache := [], memoryAccessOrder := [],
    db := some
      [⟨"a", JSValue.str "x", "T", 1, 1, 1⟩,
       ⟨"b", JSValue.str "y", "T", 1, 2, 2⟩],
    cleanupInProgress := true, cleanupScheduled := false }

/-- The same manager once the in-flight pass has finished — still over
capacity (the in-flight pass failed before deleting anything). -/
def c8AfterWait : CacheState := { c8Busy with cleanupInProgress := false }

/-- C8 counterexample: `cleanup()` called while a pass is running waits for
the flag to clear and then returns the post-wait state untouched: the store
still holds 2 rows against `maxItems = 1`, although an actual trim pass on
the post-wait state would bring it down to 1.  The requested trim is
skipped, contrary to the claim that the call "behaves as a normal trigger"
after the wait. -/
theorem cleanup_skips_requested_trim_counterexample :
    cleanup (fun _ => true) c8AfterWait c8Busy = c8AfterWait ∧
    ((cleanup (fun _ => true) c8AfterWait c8Busy).db.getD []).length = 2 ∧
    c8Busy.maxItems = 1 ∧
    ((asyncCleanup (fun _ => true) c8AfterWait).2.db.getD []).length = 1 :=
  ⟨rfl, rfl, rfl, by decide⟩

/-- C8 amended: if `cleanup()` is called while a pass is Running it polls
until the `cleanupInProgress` flag clears and then returns the post-wait
state unchanged — it does not start a concurrent pass, and it performs no
trim pass of its own (the requested trim is skipped); only when no pass is
running does it run one `_asyncCleanup` pass. -/
theorem cleanup_waits_without_trimming (f : String → Bool) (w st : CacheState) :
    (st.cleanupInProgress = true → cleanup f w st = w) ∧
    (st.cleanupInProgress = false → cleanup f w st = (asyncCleanup f st).2) := by
  constructor
  · intro h
    unfold cleanup
    rw [if_pos h]
  · intro h
    unfold cleanup
    rw [if_neg (by simp [h])]

/-- Witness for the amended C8 at the concrete busy manager. -/
theorem cleanup_waits_without_trimming_witness :
    cleanup (fun _ => true) c8AfterWait c8Busy = c8AfterWait ∧
    cleanup (fun _ => true) c8AfterWait c8AfterWait =
      (asyncCleanup (fun _ => true) c8AfterWait).2 :=
  ⟨(cleanup_waits_without_trimming (fun _ => true) c8AfterWait c8Busy).1 rfl,
   (cleanup_waits_without_trimming (fun _ => true) c8AfterWait c8AfterWait).2 rfl⟩

/-! ### C9: a failed database open rejects instead of degrading -/

/-- A manager whose IndexedDB open failed. -/
def degradedState : CacheState := initState 1000 100 none

/-- C9 counterexample: with the persistent tier failed to initialize, `get`
on an L1 miss does NOT return `null`: `ensureDB()` re-awaits the rejected
`initPromise`, so `get` rejects with the initialization error; likewise
`set` rejects (after populating L1) rather than being a silent no-op. -/
theorem degraded_mode_counterexample :
    (get 0 "k" degradedState).1 = Except.error CacheError.storageUnavailable ∧
    (get 0 "k" degradedState).1 ≠ Except.ok JSValue.null ∧
    (set true 0 "k" (JSValue.str "a") "T" degradedState).1 =
      Except.error CacheError.storageUnavailable :=
  ⟨rfl,
   by
     rw [show (get 0 "k" degradedState).1 =
       Except.error CacheError.storageUnavailable from rfl]
     simp,
   rfl⟩

/-- C9 amended: if the persistent tier fails to initialize there is no
degraded no-op mode: every subsequent `get` whose key misses L1 rejects
with the initialization error (instead of returning `null`), and every
subsequent `set` rejects as well (instead of silently doing nothing),
with its freshly inserted L1 entry left in place. -/
theorem degraded_mode_rejects (st : CacheState) (k t : String) (v : JSValue)
    (now : Nat) (hdb : st.db = none)
    (hmiss : st.memoryCache.lookup k = none) :
    (get now k st).1 = Except.error CacheError.storageUnavailable ∧
    (set true now k v t st).1 = Except.error CacheError.storageUnavailable ∧
    (set true now k v t st).2.memoryCache =
      (addToMemoryCache now k v ⟨some t, none⟩ st).memoryCache := by
  refine ⟨?_, ?_, ?_⟩
  · have hfst : (getFromMemoryCache now k st).1 = JSValue.null := by
      rw [getFromMemoryCache_fst, hmiss]
    rw [get_degraded now k st hfst hdb]
  · rw [set_none true now k v t st hdb]
  · rw [set_none true now k v t st hdb]

/-- Witness for the amended C9 at the concrete failed-open manager. -/
theorem degraded_mode_rejects_witness :
    (get 0 "k" degradedState).1 = Except.error CacheError.storageUnavailable ∧
    (set true 0 "k" (JSValue.str "a") "T" degradedState).1 =
      Except.error CacheError.storageUnavailable ∧
    (set true 0 "k" (JSValue.str "a") "T" degradedState).2.memoryCache =
      (addToMemoryCache 0 "k" (JSValue.str "a") ⟨some "T", none⟩
        degradedState).memoryCache :=
  degraded_mode_rejects degradedState "k" "T" (JSValue.str "a") 0 rfl rfl

/-! ### C10: a cached null value reads as a miss -/

/-- C10: a stored `null` value is never served from the memory tier — the L1
result `null` is treated as a miss, so the read falls through to the
persistent tier and returns whatever L2 holds; a persistent row whose value
is `null` is likewise returned as the miss result `null`; and a fully
absent key also returns `null` — at the public interface a cached `null` is
indistinguishable from an absent key. -/
theorem null_value_reads_as_miss (st : CacheState) (k : String)
    (d : List DBEntry) (now : Nat) (hdb : st.db = some d) :
    (∀ itm : MemItem, st.memoryCache.lookup k = some itm →
       itm.value = JSValue.null →
       (get now k st).1 =
         (match dbFind k d with
          | some r => Except.ok r.value
          | none => Except.ok JSValue.null)) ∧
    (∀ r : DBEntry, st.memoryCache.lookup k = none → dbFind k d = some r →
       r.value = JSValue.null → (get now k st).1 = Except.ok JSValue.null) ∧
    (st.memoryCache.lookup k = none → dbFind k d = none →
       (get now k st).1 = Except.ok JSValue.null) := by
  refine ⟨?_, ?_, ?_⟩
  · intro itm hlk hnull
    have hfst : (getFromMemoryCache now k st).1 = JSValue.null := by
      rw [getFromMemoryCache_fst, hlk]
      exact hnull
    rw [get_l1_null now k st d hfst hdb]
    cases dbFind k d <;> rfl
  · intro r hlk hfind hnull
    have hfst : (getFromMemoryCache now k st).1 = JSValue.null := by
      rw [getFromMemoryCache_fst, hlk]
    rw [get_l1_null now k st d hfst hdb, hfind]
    simp [hnull]
  · intro hlk hfind
    have hfst : (getFromMemoryCache now k st).1 = JSValue.null := by
      rw [getFromMemoryCache_fst, hlk]
    rw [get_l1_null now k st d hfst hdb, hfind]

/-- A manager holding the value `null` under `"k"` in both tiers. -/
def nullValueState : CacheState :=
  { maxItems := 3, memoryMaxItems := 2,
    memoryCache := [("k", ⟨JSValue.null, ⟨some "T", none⟩, 1⟩)],
    memoryAccessOrder := ["k"],
    db := some [⟨"k", JSValue.null, "T", 4, 1, 1⟩],
    cleanupInProgress := false, cleanupScheduled := false }

/-- Witness for C10: reading the cached `null` and reading an absent key
both yield `null`. -/
theorem null_value_reads_as_miss_witness :
    (get 2 "k" nullValueState).1 = Except.ok JSValue.null ∧
    (get 2 "zz" nullValueState).1 = Except.ok JSValue.null := by
  constructor
  · have h := (null_value_reads_as_miss nullValueState "k"
      [⟨"k", JSValue.null, "T", 4, 1, 1⟩] 2 rfl).1
      ⟨JSValue.null, ⟨some "T", none⟩, 1⟩ rfl rfl
    exact h.trans (by rfl)
  · exact (null_value_reads_as_miss nullValueState "zz"
      [⟨"k", JSValue.null, "T", 4, 1, 1⟩] 2 rfl).2.2 rfl rfl

end MdCache
